import Mathlib

/-!
Shallow embedding of the PID tank-level simulator
(src/Código_Controlador.py) and of the library routines it calls,
together with theorems settling the specification claims.

Real coefficient arithmetic is carried out over ℚ (the script only ever
combines rationals by field operations in the parts embedded here);
the ZOH discretization, which involves the exponential function, lives
over ℝ.
-/

namespace PIDSim

/-- Errors observable at the PID-synthesis site (Bloco 7 of the source).
The Python division raises a ZeroDivisionError at T = 0; the name
invalidSampleError is the failure that the specification prescribes
for nonpositive T, and is included so one can state that the code never
produces it. -/
inductive SampleErr where
  | zeroDivisionError
  | invalidSampleError
  deriving DecidableEq

/-- The discrete PID synthesizer of Bloco 7, lines 79-86:
b0 = Kp + Ki*T/2 + Kd/T, b1 = -Kp + Ki*T/2 - 2*Kd/T, b2 = Kd/T over the
fixed denominator [1, -1, 0]. When T = 0 the division Kd/T raises a
ZeroDivisionError; there is no other validation of T. -/
def pidSynthesize (Kp Ki Kd T : ℚ) : Except SampleErr (List ℚ × List ℚ) :=
  if T = 0 then .error .zeroDivisionError
  else .ok ([Kp + Ki * T / 2 + Kd / T, -Kp + Ki * T / 2 - 2 * Kd / T, Kd / T],
            [1, -1, 0])

/-- The backward loop of the settling-time computation, Bloco 12 lines
215-218: Python range(len-1, stop, -1) visits index i while i > stop,
and the loop body breaks with t[i] at the first visited index whose
output lies within the two-percent band |y[i] - 1| <= 0.02. -/
def scanBack (t y : List ℚ) (stop : ℕ) : ℕ → Option ℚ
  | 0 => none
  | i + 1 =>
    if stop < i + 1 then
      if |y.getD (i + 1) 0 - 1| ≤ 1 / 50 then some (t.getD (i + 1) 0)
      else scanBack t y stop i
    else none

/-- The settling-time computation of Bloco 12 lines 212-218: when the
trace has more than 10 samples, run the backward scan from index
len-1 down to (exclusive) max(0, len-100); otherwise the scan is
skipped and the result stays None. -/
def settlingScan (t y : List ℚ) : Option ℚ :=
  if 10 < y.length then scanBack t y (y.length - 100) (y.length - 1) else none

/-- np.max of a list, as applied to a nonempty trace in Bloco 12. -/
def npMax (y : List ℚ) : ℚ := y.foldl max (y.headD 0)

/-- The overshoot computation of Bloco 12 line 222:
max(0, (np.max(y) - 1) * 100) if len(y) > 0 else 0. -/
def overshoot (y : List ℚ) : ℚ :=
  if 0 < y.length then max 0 ((npMax y - 1) * 100) else 0

/-- The printed steady-state error for the step reference, Bloco 12 line
226: abs(1 - y[-1]); none records the Python IndexError path on an
empty trace. -/
def stepSteadyErr (y : List ℚ) : Option ℚ :=
  match y with
  | [] => none
  | _ :: _ => some |1 - y.getLastD 0|

/-- The final ramp tracking error, Bloco 12 line 239: the last entry of
the element-wise difference ref - y; none records the Python IndexError
path on an empty difference sequence. -/
def rampFinalErr (ref y : List ℚ) : Option ℚ :=
  let e := List.zipWith (fun r v => r - v) ref y
  if e.isEmpty then none else some (e.getLastD 0)

/-- Failures observable inside the two metrics try-blocks of Bloco 12.
indexError is the Python out-of-range list access, valueError is np.max on
an empty array; emptyTraceError is the failure the specification
prescribes, included so one can state that the code never produces it. -/
inductive TraceErr where
  | indexError
  | valueError
  | emptyTraceError
  deriving DecidableEq

/-- The step-metrics try-block of Bloco 12 lines 211-231 as a fallible
computation returning (settling time, overshoot, final value,
steady-state error, max control effort). The settling scan and the
guarded overshoot always succeed; the final-value access y[-1] raises
IndexError on an empty trace, and np.max(np.abs(u)) raises ValueError
on an empty effort sequence. The first failure aborts the block. -/
def stepMetrics (t y u : List ℚ) :
    Except TraceErr (Option ℚ × ℚ × ℚ × ℚ × ℚ) :=
  let st := settlingScan t y
  let ov := overshoot y
  match y with
  | [] => .error .indexError
  | _ :: _ =>
    match u with
    | [] => .error .valueError
    | _ :: _ =>
      .ok (st, ov, y.getLastD 0, |1 - y.getLastD 0|, npMax (u.map (fun v => |v|)))

/-- The ramp-metrics try-block of Bloco 12 lines 237-242 as a fallible
computation returning (final ramp error, max control effort). The
access erro_rampa[-1] raises IndexError on an empty difference sequence,
and np.max(np.abs(u)) raises ValueError on an empty effort sequence. -/
def rampMetrics (ref y u : List ℚ) : Except TraceErr (ℚ × ℚ) :=
  match rampFinalErr ref y with
  | none => .error .indexError
  | some e =>
    match u with
    | [] => .error .valueError
    | _ :: _ => .ok (e, npMax (u.map (fun v => |v|)))

/-- Decidable equality for fallible results, used to evaluate the
embedded computations on concrete inputs. -/
instance exceptDecEq {ε α : Type} [DecidableEq ε] [DecidableEq α] :
    DecidableEq (Except ε α) := fun x y =>
  match x, y with
  | .error e, .error f =>
    if h : e = f then isTrue (by rw [h]) else isFalse (by simp [h])
  | .error _, .ok _ => isFalse (fun h => Except.noConfusion h)
  | .ok _, .error _ => isFalse (fun h => Except.noConfusion h)
  | .ok a, .ok b =>
    if h : a = b then isTrue (by rw [h]) else isFalse (by simp [h])

/-- The concrete 12-sample time grid 0, 1, ..., 11 used to exercise the
settling-time computations. -/
def t12 : List ℚ := [0, 1, 2, 3, 4, 5, 6, 7, 8, 9, 10, 11]

/-- True when every sample of y from index i to the end of the trace
lies within the two-percent band around the final step reference 1. -/
def staysInBand (y : List ℚ) (i : ℕ) : Bool :=
  (y.drop i).all fun v => if |v - 1| ≤ 1 / 50 then true else false

/-- Modelled from the spec: the settling-time semantics of section 4.5
(the source computes this metric inline, and the claim states the
intended meaning rather than the loop as written): over the same
scanned window as the code, max(0, len-100) exclusive up to len-1, the
settling time is the earliest sample time at or after which the output
stays within the two-percent band through the end of the trace, absent
when no scanned index qualifies. -/
def settlingSpecTime (t y : List ℚ) : Option ℚ :=
  if 10 < y.length then
    match (List.range' (y.length - 100 + 1) (y.length - 1 - (y.length - 100))).find?
        (fun i => staysInBand y i) with
    | some i => some (t.getD i 0)
    | none => none
  else none

/-- Evaluate a coefficient list, highest order first, at a point. -/
def polyEval {R : Type} [CommRing R] (p : List R) (x : R) : R :=
  match p with
  | [] => 0
  | c :: cs => c * x ^ cs.length + polyEval cs x

/-- Modelled from the spec: the ZOH discretization performed by the
scipy call signal.cont2discrete on the first-order plant K/(tau s + 1)
at Bloco 6 (scipy is external to the repository); section 4.1 gives the
closed form with pole a = e^(-T/tau): numerator K(1 - a), denominator
[1, -a]. The definition is parametric in the pole value a so that it
stays executable; the claim theorems instantiate a = e^(-T/tau). -/
def zohFirstOrder {R : Type} [CommRing R] (K a : R) : List R × List R :=
  ([K * (1 - a)], [1, -a])

/-- Modelled from the spec: the discrete transfer-function data handled
by the control library (external to the repository): numerator and
denominator coefficient lists, highest order first. -/
structure TF where
  num : List ℚ
  den : List ℚ

/-- Pad a coefficient list with leading zeros up to length n. -/
def padTo (n : ℕ) (p : List ℚ) : List ℚ := List.replicate (n - p.length) 0 ++ p

/-- Modelled from the spec: element-wise polynomial addition after
degree alignment with leading-zero padding, as performed inside the
feedback composition of the control library. -/
def polyAdd (p q : List ℚ) : List ℚ :=
  List.zipWith (fun a b => a + b) (padTo (max p.length q.length) p)
    (padTo (max p.length q.length) q)

/-- Modelled from the spec: polynomial multiplication of coefficient
lists (convolution), highest order first, as performed by the control
series composition Cz * Gz of the control library. -/
def polyMul (p q : List ℚ) : List ℚ :=
  match p with
  | [] => []
  | c :: cs =>
    polyAdd (q.map (fun d => c * d) ++ List.replicate cs.length 0) (polyMul cs q)

/-- Modelled from the spec: the closed-loop composition performed by
feedback(Cz * Gz, 1) at Bloco 8 (the control library is external to the
repository): the open loop L multiplies numerators and denominators,
and unity negative feedback keeps the numerator of L while adding it
into the denominator of L. -/
def closeLoop (C G : TF) : TF :=
  let L : TF := ⟨polyMul C.num G.num, polyMul C.den G.den⟩
  ⟨L.num, polyAdd L.den L.num⟩

/-- Modelled from the spec: the forced_response simulator invoked at
Bloco 9 (the control library is external to the repository), realized
as the normalized recursive difference equation of section 4.4,
y[n] = (1/a0) * (sum_k b_k u[n-k] - sum_k a_k y[n-k] for k >= 1),
with every history term at a negative index taken as zero. -/
def simOut (b a : List ℚ) (u : ℕ → ℚ) : ℕ → ℚ
  | n =>
    (a.headD 1)⁻¹ *
      (((Finset.range b.length).sum fun k =>
          b.getD k 0 * (if k ≤ n then u (n - k) else 0)) -
        ((Finset.Ico 1 a.length).sum fun k =>
          a.getD k 0 * (if _h : 1 ≤ k ∧ k ≤ n then simOut b a u (n - k) else 0)))
  termination_by n => n
  decreasing_by omega

/-! ## Supporting lemmas on polynomial coefficient lists -/

lemma polyEval_replicate_zero {R : Type} [CommRing R] (k : ℕ) (x : R) :
    polyEval (List.replicate k (0 : R)) x = 0 := by
  induction k with
  | zero => simp [polyEval]
  | succ n ih => simp [List.replicate, polyEval, ih]

lemma polyEval_append_replicate {R : Type} [CommRing R] (p : List R) (k : ℕ)
    (x : R) : polyEval (p ++ List.replicate k 0) x = polyEval p x * x ^ k := by
  induction p with
  | nil => simp [polyEval, polyEval_replicate_zero]
  | cons c cs ih =>
    simp only [List.cons_append, polyEval, List.append_eq, List.length_append,
      List.length_replicate, ih]
    ring

lemma polyEval_replicate_append {R : Type} [CommRing R] (p : List R) (k : ℕ)
    (x : R) : polyEval (List.replicate k 0 ++ p) x = polyEval p x := by
  induction k with
  | zero => simp
  | succ n ih => simpa [List.replicate, polyEval] using ih

lemma length_padTo (n : ℕ) (p : List ℚ) : (padTo n p).length = max n p.length := by
  simp only [padTo, List.length_append, List.length_replicate]
  omega

lemma polyEval_padTo (n : ℕ) (p : List ℚ) (x : ℚ) :
    polyEval (padTo n p) x = polyEval p x :=
  polyEval_replicate_append p (n - p.length) x

lemma polyEval_zipWith_add (p : List ℚ) :
    ∀ (q : List ℚ), p.length = q.length → ∀ x : ℚ,
      polyEval (List.zipWith (fun a b => a + b) p q) x =
        polyEval p x + polyEval q x := by
  induction p with
  | nil =>
    intro q h x
    cases q with
    | nil => simp [polyEval]
    | cons b qs => simp at h
  | cons a ps ih =>
    intro q h x
    cases q with
    | nil => simp at h
    | cons b qs =>
      have hpq : ps.length = qs.length := by simpa using h
      simp only [List.zipWith_cons_cons, polyEval, List.length_zipWith,
        ih qs hpq x, hpq, min_self]
      ring

lemma polyEval_polyAdd (p q : List ℚ) (x : ℚ) :
    polyEval (polyAdd p q) x = polyEval p x + polyEval q x := by
  unfold polyAdd
  rw [polyEval_zipWith_add _ _ (by rw [length_padTo, length_padTo]; omega)]
  rw [polyEval_padTo, polyEval_padTo]

lemma polyEval_map_mul (c : ℚ) (q : List ℚ) (x : ℚ) :
    polyEval (q.map (fun d => c * d)) x = c * polyEval q x := by
  induction q with
  | nil => simp [polyEval]
  | cons d qs ih =>
    simp only [List.map_cons, polyEval, List.length_map, ih]
    ring

lemma polyEval_polyMul (p q : List ℚ) (x : ℚ) :
    polyEval (polyMul p q) x = polyEval p x * polyEval q x := by
  induction p with
  | nil => simp [polyMul, polyEval]
  | cons c cs ih =>
    simp only [polyMul]
    rw [polyEval_polyAdd, polyEval_append_replicate, polyEval_map_mul, ih]
    simp only [polyEval]
    ring

/-! ## Supporting lemmas on traces -/

lemma foldl_max_le (c : ℚ) : ∀ (l : List ℚ) (init : ℚ), init ≤ c →
    (∀ v ∈ l, v ≤ c) → l.foldl max init ≤ c := by
  intro l
  induction l with
  | nil => intro init h _; simpa using h
  | cons a as ih =>
    intro init h hall
    simp only [List.foldl_cons]
    refine ih (max init a) (max_le h (hall a (by simp))) ?_
    intro v hv
    exact hall v (by simp [hv])

lemma zipWith_sub_getLastD : ∀ (p q : List ℚ) (dp dq : ℚ),
    p.length = q.length → p ≠ [] →
      (List.zipWith (fun r v => r - v) p q).getLastD (dp - dq) =
        p.getLastD dp - q.getLastD dq := by
  intro p
  induction p with
  | nil => intro q dp dq _ hne; exact absurd rfl hne
  | cons a ps ih =>
    intro q dp dq h hne
    cases q with
    | nil => simp at h
    | cons b qs =>
      have hpq : ps.length = qs.length := by simpa using h
      cases ps with
      | nil =>
        cases qs with
        | nil => simp
        | cons b2 qs2 => simp at hpq
      | cons a2 ps2 =>
        simp only [List.zipWith_cons_cons, List.getLastD_cons]
        rw [ih qs a b hpq (by simp), List.getLastD_cons]

/-! ## Claim theorems -/

/-- C1: the discrete PID synthesizer computes exactly
b0 = Kp + Ki*T/2 + Kd/T, b1 = -Kp + Ki*T/2 - 2*Kd/T, b2 = Kd/T over the
fixed denominator [1, -1, 0]; in particular, for T = 1, Kp = 1, Ki = 0,
Kd = 0 it yields b0 = 1, b1 = -1, b2 = 0. -/
theorem pid_coefficients (Kp Ki Kd T : ℚ) (hT : 0 < T) :
    pidSynthesize Kp Ki Kd T =
      .ok ([Kp + Ki * T / 2 + Kd / T, -Kp + Ki * T / 2 - 2 * Kd / T, Kd / T],
           [1, -1, 0]) ∧
    pidSynthesize 1 0 0 1 = .ok ([1, -1, 0], [1, -1, 0]) := by
  constructor
  · unfold pidSynthesize
    rw [if_neg hT.ne']
  · norm_num [pidSynthesize]

/-- Witness for C1 at Kp = 1, Ki = 0, Kd = 0, T = 1. -/
theorem pid_coefficients_witness :
    pidSynthesize 1 0 0 1 = .ok ([1, -1, 0], [1, -1, 0]) :=
  (pid_coefficients 1 0 0 1 (by norm_num)).2

/-- C2: for every K and every tau > 0, T > 0, the ZOH discretization of
K/(tau s + 1) with sample period T has numerator K(1 - e^(-T/tau)) and
denominator [1, -e^(-T/tau)], the denominator polynomial vanishes at the
discrete pole e^(-T/tau), and the discrete DC gain
sum(numerator)/sum(denominator) equals the continuous DC gain K. -/
theorem zoh_pole_dc_gain (K tau T : ℝ) (htau : 0 < tau) (hT : 0 < T) :
    zohFirstOrder K (Real.exp (-T / tau)) =
      ([K * (1 - Real.exp (-T / tau))], [1, -Real.exp (-T / tau)]) ∧
    polyEval (zohFirstOrder K (Real.exp (-T / tau))).2 (Real.exp (-T / tau)) = 0 ∧
    (zohFirstOrder K (Real.exp (-T / tau))).1.sum /
      (zohFirstOrder K (Real.exp (-T / tau))).2.sum = K := by
  have hneg : -T / tau < 0 := by
    rw [neg_div]
    exact neg_neg_iff_pos.mpr (div_pos hT htau)
  have hlt : Real.exp (-T / tau) < 1 := by
    calc Real.exp (-T / tau) < Real.exp 0 := Real.exp_lt_exp.mpr hneg
    _ = 1 := Real.exp_zero
  refine ⟨rfl, ?_, ?_⟩
  · simp only [zohFirstOrder, polyEval, List.length_cons, List.length_nil]
    ring
  · have hne : (1 : ℝ) + (-Real.exp (-T / tau) + 0) ≠ 0 := by
      have : 0 < 1 - Real.exp (-T / tau) := by linarith
      intro hc
      rw [add_zero] at hc
      linarith
    simp only [zohFirstOrder, List.sum_cons, List.sum_nil]
    rw [div_eq_iff hne]
    ring

/-- Witness for C2 at K = 1, tau = 1, T = 1. -/
theorem zoh_pole_dc_gain_witness :
    zohFirstOrder (1 : ℝ) (Real.exp (-1 / 1)) =
      ([1 * (1 - Real.exp (-1 / 1))], [1, -Real.exp (-1 / 1)]) ∧
    polyEval (zohFirstOrder (1 : ℝ) (Real.exp (-1 / 1))).2 (Real.exp (-1 / 1)) = 0 ∧
    (zohFirstOrder (1 : ℝ) (Real.exp (-1 / 1))).1.sum /
      (zohFirstOrder (1 : ℝ) (Real.exp (-1 / 1))).2.sum = 1 :=
  zoh_pole_dc_gain 1 1 1 (by norm_num) (by norm_num)

/-- C3: for every discrete controller C and plant G, the unity-feedback
closed loop has numerator num(C)*num(G) and denominator
den(C)*den(G) + num(C)*num(G) element-wise after degree alignment, and
this coefficient-level algebra agrees with genuine polynomial algebra:
the closed-loop denominator evaluates everywhere to
den(C)(x)den(G)(x) + num(C)(x)num(G)(x). -/
theorem closeLoop_polynomial_algebra (C G : TF) :
    (closeLoop C G).num = polyMul C.num G.num ∧
    (closeLoop C G).den = polyAdd (polyMul C.den G.den) (polyMul C.num G.num) ∧
    ∀ x : ℚ, polyEval (closeLoop C G).den x =
      polyEval C.den x * polyEval G.den x + polyEval C.num x * polyEval G.num x := by
  refine ⟨rfl, rfl, fun x => ?_⟩
  show polyEval (polyAdd (polyMul C.den G.den) (polyMul C.num G.num)) x = _
  rw [polyEval_polyAdd, polyEval_polyMul, polyEval_polyMul]

/-- C4: the time-domain simulator realizes the normalized recursive
difference equation with zero initial state; consequently, simulating
the identity system (numerator [1], denominator [1]) returns an output
equal to the input at every sample. -/
theorem simOut_identity (u : ℕ → ℚ) (n : ℕ) : simOut [1] [1] u n = u n := by
  rw [simOut]
  norm_num

/-- C5: on a 12-sample trace that is inside the two-percent band at
every sample, the backward scan of the code (which breaks at the first
in-band sample it meets, i.e. reports the latest in-band time) returns
sample time 11, whereas the settling time prescribed by the
specification (the earliest scanned time from which the output stays in
band through the end) is sample time 1. -/
theorem settling_scan_reports_latest :
    settlingScan t12 (List.replicate 12 1) = some 11 ∧
    settlingSpecTime t12 (List.replicate 12 1) = some 1 ∧
    some (11 : ℚ) ≠ some (1 : ℚ) := by
  refine ⟨?_, ?_, by norm_num⟩
  · norm_num [settlingScan, scanBack, t12, List.getD, List.replicate]
  · norm_num [settlingSpecTime, t12, staysInBand, List.getD, List.replicate,
      List.range', List.find?]

/-- C6 counterexample: for the one-sample trace with output 2, the code
reports the step steady-state error abs(1 - 2) = 1, while the last
value of reference - output is -1; the reported step error is not the
signed quantity the claim states. -/
theorem step_error_unsigned_cex :
    stepSteadyErr [2] = some 1 ∧
    List.zipWith (fun r v => r - v) [(1 : ℚ)] [2] = [-1] ∧
    some (1 : ℚ) ≠ some (-1 : ℚ) := by
  refine ⟨?_, ?_, by norm_num⟩
  · norm_num [stepSteadyErr, List.getLastD]
  · norm_num [List.zipWith]

/-- C6 amended: for every nonempty trace, the reported ramp error is
the signed last value of reference - output, while the reported step
steady-state error is the absolute value abs(1 - output[-1]). -/
theorem steady_state_errors (y ref yr : List ℚ)
    (hy : y ≠ []) (hr : ref.length = yr.length) (hne : ref ≠ []) :
    stepSteadyErr y = some |1 - y.getLastD 0| ∧
    rampFinalErr ref yr = some (ref.getLastD 0 - yr.getLastD 0) := by
  constructor
  · cases y with
    | nil => exact absurd rfl hy
    | cons a ys => rfl
  · unfold rampFinalErr
    have hzne : List.zipWith (fun r v => r - v) ref yr ≠ [] := by
      cases ref with
      | nil => exact absurd rfl hne
      | cons a ps =>
        cases yr with
        | nil => simp at hr
        | cons b qs => simp
    rw [if_neg (by simpa using hzne)]
    have hl := zipWith_sub_getLastD ref yr 0 0 hr hne
    rw [sub_zero] at hl
    rw [hl]

/-- Witness for the amended C6 at y = [2], ref = [1], yr = [2]. -/
theorem steady_state_errors_witness :
    stepSteadyErr [2] = some |1 - ([2] : List ℚ).getLastD 0| ∧
    rampFinalErr [1] [2] = some (([1] : List ℚ).getLastD 0 - ([2] : List ℚ).getLastD 0) :=
  steady_state_errors [2] [1] [2] (by simp) (by simp) (by simp)

/-- C7: for every nonempty step trace, the reported overshoot is
max(0, (max(output) - 1) * 100) (the final reference value being 1),
and it is exactly zero whenever the output never exceeds the final
reference value. -/
theorem overshoot_formula (y : List ℚ) (hy : y ≠ []) :
    overshoot y = max 0 ((npMax y - 1) * 100) ∧
    ((∀ v ∈ y, v ≤ 1) → overshoot y = 0) := by
  have hlen : 0 < y.length := List.length_pos.mpr hy
  constructor
  · unfold overshoot
    rw [if_pos hlen]
  · intro hall
    unfold overshoot npMax
    rw [if_pos hlen]
    have hhead : y.headD 0 ≤ 1 := by
      cases y with
      | nil => exact absurd rfl hy
      | cons a as => exact hall a (by simp)
    have hmax : y.foldl max (y.headD 0) ≤ 1 := foldl_max_le 1 y _ hhead hall
    have hnp : (y.foldl max (y.headD 0) - 1) * 100 ≤ 0 := by nlinarith
    exact max_eq_left hnp

/-- Witness for C7 at the in-band trace [1/2, 1]. -/
theorem overshoot_formula_witness : overshoot [(1 : ℚ)/2, 1] = 0 :=
  (overshoot_formula [(1 : ℚ)/2, 1] (by simp)).2 (by norm_num)

/-- C8 counterexample: on an empty trace the step-metrics block fails
with the index-out-of-range error (from the access y[-1]), which is not
the EmptyTraceError the claim states; moreover the overshoot is
silently coerced to the default 0 on an empty trace. -/
theorem empty_trace_index_error_cex :
    stepMetrics [] [] [] = .error .indexError ∧
    (Except.error TraceErr.indexError :
        Except TraceErr (Option ℚ × ℚ × ℚ × ℚ × ℚ)) ≠ .error .emptyTraceError ∧
    overshoot [] = 0 := by
  refine ⟨by norm_num [stepMetrics], by simp, by norm_num [overshoot]⟩

/-- C8 amended: metric computations on an empty trace fail inside the
try-blocks with an index-out-of-range error (caught and printed by the
broad except), never with a distinct EmptyTraceError, and the overshoot
is silently coerced to the default 0 on an empty trace. -/
theorem empty_trace_behavior :
    (∀ t u, stepMetrics t [] u = .error .indexError) ∧
    (∀ y u, rampMetrics [] y u = .error .indexError) ∧
    overshoot [] = 0 := by
  refine ⟨fun t u => rfl, fun y u => rfl, by norm_num [overshoot]⟩

/-- C9 counterexample: at the nonpositive sample period T = -1 the PID
synthesizer succeeds with the coefficient formulas instead of failing
with InvalidSampleError. -/
theorem pid_no_validation_cex :
    pidSynthesize 1 1 1 (-1) = .ok ([-1/2, 1/2, -1], [1, -1, 0]) ∧
    pidSynthesize 1 1 1 (-1) ≠ .error .invalidSampleError := by
  have h : pidSynthesize 1 1 1 (-1) = .ok ([-1/2, 1/2, -1], [1, -1, 0]) := by
    norm_num [pidSynthesize]
  refine ⟨h, ?_⟩
  rw [h]
  intro hc
  exact Except.noConfusion hc

/-- C9 amended: the PID synthesizer performs no sample-period
validation: for every T other than 0 (negative included) it succeeds
with the coefficient formulas, and at T = 0 it fails with the
ZeroDivisionError of the Python division, never with InvalidSampleError. -/
theorem pid_no_sample_validation :
    (∀ Kp Ki Kd T : ℚ, T ≠ 0 →
        pidSynthesize Kp Ki Kd T =
          .ok ([Kp + Ki * T / 2 + Kd / T, -Kp + Ki * T / 2 - 2 * Kd / T, Kd / T],
               [1, -1, 0])) ∧
    (∀ Kp Ki Kd : ℚ, pidSynthesize Kp Ki Kd 0 = .error .zeroDivisionError) := by
  constructor
  · intro Kp Ki Kd T hT
    unfold pidSynthesize
    rw [if_neg hT]
  · intro Kp Ki Kd
    unfold pidSynthesize
    rw [if_pos rfl]

/-- Witness for the amended C9 at T = 2 and at T = 0. -/
theorem pid_no_sample_validation_witness :
    pidSynthesize 1 0 0 2 =
      .ok ([1 + 0 * 2 / 2 + 0 / 2, -1 + 0 * 2 / 2 - 2 * 0 / 2, 0 / 2],
           [1, -1, 0]) ∧
    pidSynthesize 1 0 0 0 = .error .zeroDivisionError :=
  ⟨pid_no_sample_validation.1 1 0 0 2 (by norm_num),
   pid_no_sample_validation.2 1 0 0⟩

/-- C10: for every trace of at most 10 samples the settling-time scan is
skipped entirely and the settling time stays absent, whatever the
samples are (in particular even when all of them lie in the band). -/
theorem settling_scan_skipped_short (t y : List ℚ) (h : y.length ≤ 10) :
    settlingScan t y = none := by
  unfold settlingScan
  rw [if_neg (by omega)]

/-- Witness for C10 on a three-sample all-in-band trace. -/
theorem settling_scan_skipped_short_witness :
    settlingScan [0, 1, 2] [1, 1, 1] = none :=
  settling_scan_skipped_short [0, 1, 2] [1, 1, 1] (by simp)

end PIDSim
